import Mathlib

/-!
Shallow embedding of the node-pool manager of `eth-proxy`
(`internal/nodemanager/clientmanager.go`): node records, round-robin
selection (`NextNode`), health probing (`CheckNodeHealth`, `cooldownNode`),
the TTL cache, and the retrying balance orchestrator (`GetBalance`).

Conventions of the embedding:
* Go `time.Time` values are integer seconds; `time.Since(t)` is `now - t`.
* The shared HTTP world is an oracle: a health probe outcome is a
  `ProbeResult`, a balance fetch is a function from the attempt index and
  the dispatched node to a `FetchResult` (Go `fetchBalanceFromNode`
  returns a `(string, error)` pair).
* Go's unchecked slice indexing `m.Nodes[m.index]` is modelled by a
  distinguished `oobPanic` outcome when the index is out of range, and the
  nil-pointer dereference on the transport-error logging path of
  `CheckNodeHealth` by a `panics` flag.
* `os.Getenv` + `strconv.Atoi` is modelled by an `Option Int`: `none`
  stands for an absent or unparsable variable, `some v` for a parse of `v`.
-/

namespace EthProxy

/-- Embeds Go `NodeConfig` (clientmanager.go lines 18-21). -/
structure NodeConfig where
  name : String
  url : String
  deriving Repr, DecidableEq

/-- Embeds Go `EthereumNode` (lines 23-29).  `lastUsed` is bookkeeping the
manager never reads, so it is omitted from the state. -/
structure EthereumNode where
  name : String
  url : String
  healthy : Bool
  errorCount : Nat
  deriving Repr, DecidableEq

/-- Embeds Go `CacheItem` (lines 31-34); the timestamp is in seconds. -/
structure CacheItem where
  balance : String
  timestamp : Int
  deriving Repr, DecidableEq

/-- Embeds the mutable state of Go `ClientManager` (lines 36-43): the node
slice, the round-robin cursor `index`, `lastNodeName`, and the cache map
(represented as an association list with replace-on-insert semantics). -/
structure ClientManager where
  nodes : List EthereumNode
  index : Nat
  lastNodeName : String
  cache : List (String × CacheItem)
  deriving Repr, DecidableEq

/-- Go map read `m.Cache[address]` on the association-list model. -/
def cacheLookup : List (String × CacheItem) → String → Option CacheItem
  | [], _ => none
  | (k, v) :: rest, key => if k = key then some v else cacheLookup rest key

/-- Go map write `m.Cache[address] = item`: replaces the binding if the key
is present, otherwise appends it. -/
def cacheInsert : List (String × CacheItem) → String → CacheItem → List (String × CacheItem)
  | [], key, item => [(key, item)]
  | (k, v) :: rest, key, item =>
    if k = key then (key, item) :: rest else (k, v) :: cacheInsert rest key item

/-- Embeds Go `NewClientManager` (lines 62-73): every node starts healthy
with a zero error count; cursor, last-used name and cache start at their
Go zero values. -/
def newClientManager (configs : List NodeConfig) : ClientManager :=
  { nodes := configs.map fun c =>
      { name := c.name, url := c.url, healthy := true, errorCount := 0 },
    index := 0,
    lastNodeName := "",
    cache := [] }

/-- Outcome of one `NextNode` scan: a healthy node found at a pool
position, the scan exhausted without a healthy node (Go returns `nil`), or
a Go runtime panic from indexing `m.Nodes[m.index]` out of range. -/
inductive SelectStep where
  | found (pos : Nat) (node : EthereumNode)
  | exhausted
  | oobPanic
  deriving Repr, DecidableEq

/-- The loop of Go `NextNode` (lines 80-95).  `fuel` is the remaining
iteration budget `attempt < len(m.Nodes)`; `idx` is the current value of
`m.index`, returned alongside the outcome because Go mutates `m.index` on
every iteration.  The `% nodes.length` in the body only runs when the
initial fuel `nodes.length` is positive, so it never divides by zero. -/
def nextNodeAux (nodes : List EthereumNode) (startIdx : Nat) :
    Nat → Nat → SelectStep × Nat
  | idx, 0 => (.exhausted, idx)
  | idx, fuel + 1 =>
    match nodes[idx]? with
    | none => (.oobPanic, idx)
    | some node =>
      if node.healthy then (.found idx node, (idx + 1) % nodes.length)
      else if (idx + 1) % nodes.length = startIdx then (.exhausted, (idx + 1) % nodes.length)
      else nextNodeAux nodes startIdx ((idx + 1) % nodes.length) fuel

/-- Embeds Go `NextNode` (lines 76-98): scans from the cursor, returns the
first healthy node after advancing the cursor past it (wrapping) and
recording its name in `lastNodeName`; with no healthy node it returns
`nil` (here `.exhausted`) with the cursor as the loop left it. -/
def nextNode (m : ClientManager) : SelectStep × ClientManager :=
  match nextNodeAux m.nodes m.index m.index m.nodes.length with
  | (.found pos node, idx2) =>
    (.found pos node, { m with index := idx2, lastNodeName := node.name })
  | (.exhausted, idx2) => (.exhausted, { m with index := idx2 })
  | (.oobPanic, idx2) => (.oobPanic, { m with index := idx2 })

/-- Embeds Go `IsReady` (lines 184-196). -/
def isReady (m : ClientManager) : Bool :=
  m.nodes.any fun n => n.healthy

/-- Outcome of the health-probe HTTP round trip of `CheckNodeHealth`: a
transport error (`m.httpClient.Do` returned a non-nil error, so `resp` is
nil) or a response with a status code. -/
inductive ProbeResult where
  | transportError
  | status (code : Nat)
  deriving Repr, DecidableEq

/-- The success test of line 127: no transport error and status 200. -/
def probeSuccess : ProbeResult → Bool
  | .transportError => false
  | .status code => code == 200

/-- Effect of one `CheckNodeHealth` run on the probed node:
the updated node, whether a `cooldownNode` goroutine was spawned, and
whether the run panics.  On the transport-error branch `resp` is nil and
the structured log at line 138 reads `resp.StatusCode`, a nil-pointer
dereference; the node mutations and the cooldown spawn precede it. -/
structure ProbeEffect where
  node : EthereumNode
  cooldownScheduled : Option Nat
  panics : Bool
  deriving Repr, DecidableEq

/-- The cooldown delay passed at line 131: `1 * time.Minute`, in seconds. -/
def cooldownDelaySeconds : Nat := 60

/-- Embeds the health-state effect of Go `CheckNodeHealth` (lines 101-151)
given the probe outcome.  `cooldownScheduled` carries the delay of the
spawned `cooldownNode` goroutine, if one was spawned. -/
def checkNodeHealth (r : ProbeResult) (n : EthereumNode) : ProbeEffect :=
  if probeSuccess r then
    { node := { n with healthy := true, errorCount := 0 },
      cooldownScheduled := none,
      panics := false }
  else
    let n2 : EthereumNode := { n with healthy := false, errorCount := n.errorCount + 1 }
    { node := n2,
      cooldownScheduled := if 3 ≤ n2.errorCount then some cooldownDelaySeconds else none,
      panics := r == .transportError }

/-- Embeds the state effect of Go `cooldownNode` (lines 154-159): after
sleeping for the given duration it unconditionally marks the node healthy
and zeroes the error count, without any re-probe. -/
def cooldownNode (_durationSeconds : Nat) (n : EthereumNode) : EthereumNode :=
  { n with healthy := true, errorCount := 0 }

/-- The `(string, error)` pair returned by one Go `fetchBalanceFromNode`
call (lines 269-324); `error = none` means success. -/
structure FetchResult where
  balance : String
  error : Option String
  deriving Repr, DecidableEq

/-- The two error values `GetBalance` itself constructs: the
`no healthy Ethereum Nodes available` error of line 239, and the
`failed to fetch balance after %d retries, last error: %w` error of
line 265, which carries the retry count and wraps the last attempt
error. -/
inductive BalanceError where
  | noHealthyNodes
  | retriesExhausted (retries : Int) (lastErr : Option String)
  deriving Repr, DecidableEq

/-- Result of a `GetBalance` run: a balance, one of the two
`BalanceError`s, or a Go runtime panic propagated from `NextNode`. -/
inductive BalanceResult where
  | ok (balance : String)
  | err (e : BalanceError)
  | panicked
  deriving Repr, DecidableEq

/-- A `GetBalance` run: its result, the final manager state, how many
times it invoked `NextNode`, and how many upstream fetch attempts it
made. -/
structure RunOutcome where
  result : BalanceResult
  state : ClientManager
  selectCalls : Nat
  attempts : Nat
  deriving Repr, DecidableEq

/-- `NODE_REQUEST_TIMEOUT_SECONDS` resolution (lines 201-204): default 5
on parse failure or a non-positive value. -/
def resolveTimeout : Option Int → Int
  | none => 5
  | some v => if v ≤ 0 then 5 else v

/-- `MAX_RETRIES` resolution (lines 207-210): default 3 on parse failure
or a NEGATIVE value — `maxRetries < 0` in the source, so an external 0 is
kept. -/
def resolveMaxRetries : Option Int → Int
  | none => 3
  | some v => if v < 0 then 3 else v

/-- `CACHE_EXPIRATION_SECONDS` resolution (lines 216-219): default 60 on
parse failure or a non-positive value. -/
def resolveCacheExpiration : Option Int → Int
  | none => 60
  | some v => if v ≤ 0 then 60 else v

/-- Sets `node.Healthy = false` through the pool pointer at `pos`
(line 259; `NewClientManager` allocates a distinct node per entry, so the
pointer write is a positional update). -/
def markNodeUnhealthy : List EthereumNode → Nat → List EthereumNode
  | [], _ => []
  | n :: rest, 0 => { n with healthy := false } :: rest
  | n :: rest, pos + 1 => n :: markNodeUnhealthy rest pos

/-- The retry loop of Go `GetBalance` (lines 232-265).  `fuel` is the
number of remaining iterations of `for i := 0; i <= maxRetries; i++`
(initially `maxRetries + 1`), `i` the current attempt index, `lastErr` the
running last error.  Each iteration asks `NextNode` for a node; `nil`
aborts with the no-healthy-nodes error; a fetch success returns the
balance at once; a fetch failure writes the returned value into the cache
under the queried address with the current time, marks the dispatched
node unhealthy, records the error and continues. -/
def getBalanceLoop (fetch : Nat → EthereumNode → FetchResult) (address : String)
    (now : Int) (maxRetries : Int) :
    Nat → Nat → Option String → ClientManager → RunOutcome
  | 0, _, lastErr, m =>
    { result := .err (.retriesExhausted maxRetries lastErr),
      state := m, selectCalls := 0, attempts := 0 }
  | fuel + 1, i, _lastErr, m =>
    match nextNode m with
    | (.oobPanic, m1) =>
      { result := .panicked, state := m1, selectCalls := 1, attempts := 0 }
    | (.exhausted, m1) =>
      { result := .err .noHealthyNodes, state := m1, selectCalls := 1, attempts := 0 }
    | (.found pos node, m1) =>
      let r := fetch i node
      match r.error with
      | none =>
        { result := .ok r.balance, state := m1, selectCalls := 1, attempts := 1 }
      | some e =>
        let m2 : ClientManager :=
          { m1 with cache := cacheInsert m1.cache address ⟨r.balance, now⟩,
                    nodes := markNodeUnhealthy m1.nodes pos }
        let rest := getBalanceLoop fetch address now maxRetries fuel (i + 1) (some e) m2
        { rest with selectCalls := rest.selectCalls + 1, attempts := rest.attempts + 1 }

/-- Embeds Go `GetBalance` (lines 199-266).  The three environment reads
arrive as `Option Int` parse results; `fetch` is the upstream oracle
(attempt index, dispatched node ↦ result of `fetchBalanceFromNode`, whose
per-attempt deadline `resolveTimeout` configures); `now` is the current
time in seconds.  A cache entry no older than the expiration window is
returned with no selection and no upstream call; otherwise the retry loop
runs with `maxRetries + 1` iterations. -/
def getBalance (envTimeout envMaxRetries envCacheExpiration : Option Int)
    (fetch : Nat → EthereumNode → FetchResult) (now : Int)
    (address : String) (m : ClientManager) : RunOutcome :=
  let _timeoutSecs := resolveTimeout envTimeout
  let maxRetries := resolveMaxRetries envMaxRetries
  let cacheExpirationSecs := resolveCacheExpiration envCacheExpiration
  let hit : Option String :=
    match cacheLookup m.cache address with
    | some item =>
      if now - item.timestamp ≤ cacheExpirationSecs then some item.balance else none
    | none => none
  match hit with
  | some balance =>
    { result := .ok balance, state := m, selectCalls := 0, attempts := 0 }
  | none =>
    getBalanceLoop fetch address now maxRetries (maxRetries.toNat + 1) 0 none m

/-! ### Lemmas about the selection scan -/

/-- A `found` outcome of the scan carries a healthy node, read off the pool
at the reported position, with the cursor left just past it (wrapping). -/
theorem nextNodeAux_found {nodes : List EthereumNode} {startIdx : Nat} :
    ∀ {fuel idx pos node idx2},
      nextNodeAux nodes startIdx idx fuel = (.found pos node, idx2) →
      node.healthy = true ∧ nodes[pos]? = some node ∧ idx2 = (pos + 1) % nodes.length := by
  intro fuel
  induction fuel with
  | zero => intro idx pos node idx2 h; simp [nextNodeAux] at h
  | succ fuel ih =>
    intro idx pos node idx2 h
    simp only [nextNodeAux] at h
    split at h
    · simp at h
    next nd hg =>
      split at h
      next hh =>
        simp only [Prod.mk.injEq, SelectStep.found.injEq] at h
        obtain ⟨⟨hp, hn⟩, hi⟩ := h
        subst hp; subst hn
        exact ⟨hh, hg, hi.symm⟩
      next hh =>
        split at h
        · simp at h
        · exact ih h

/-- Starting in bounds, the scan never panics and leaves the cursor in
bounds. -/
theorem nextNodeAux_bounds {nodes : List EthereumNode} {startIdx : Nat} :
    ∀ {fuel idx}, idx < nodes.length →
      (nextNodeAux nodes startIdx idx fuel).1 ≠ .oobPanic ∧
      (nextNodeAux nodes startIdx idx fuel).2 < nodes.length := by
  intro fuel
  induction fuel with
  | zero => intro idx hidx; simp [nextNodeAux, hidx]
  | succ fuel ih =>
    intro idx hidx
    have hpos : 0 < nodes.length := Nat.lt_of_le_of_lt (Nat.zero_le idx) hidx
    have hmod : (idx + 1) % nodes.length < nodes.length := Nat.mod_lt _ hpos
    simp only [nextNodeAux]
    split
    next hg =>
      rw [List.getElem?_eq_none_iff] at hg
      omega
    next nd hg =>
      split
      · exact ⟨by simp, hmod⟩
      · split
        · exact ⟨by simp, hmod⟩
        · exact ih hmod

/-- With every node unhealthy, an in-bounds scan exhausts the pool. -/
theorem nextNodeAux_exhausted {nodes : List EthereumNode} {startIdx : Nat}
    (hall : ∀ n ∈ nodes, n.healthy = false) :
    ∀ {fuel idx}, idx < nodes.length →
      (nextNodeAux nodes startIdx idx fuel).1 = .exhausted := by
  intro fuel
  induction fuel with
  | zero => intro idx _; simp [nextNodeAux]
  | succ fuel ih =>
    intro idx hidx
    have hpos : 0 < nodes.length := Nat.lt_of_le_of_lt (Nat.zero_le idx) hidx
    have hmod : (idx + 1) % nodes.length < nodes.length := Nat.mod_lt _ hpos
    simp only [nextNodeAux]
    split
    next hg =>
      rw [List.getElem?_eq_none_iff] at hg
      omega
    next nd hg =>
      have hmem : nd ∈ nodes := by
        rw [List.getElem?_eq_getElem hidx] at hg
        exact (Option.some_inj.mp hg) ▸ List.getElem_mem hidx
      have hh : nd.healthy = false := hall _ hmem
      split
      next hhh => rw [hh] at hhh; exact absurd hhh (by simp)
      next =>
        split
        · rfl
        · exact ih hmod

/-- `NextNode` only ever rewrites the cursor and the last-used name; the
node slice and the cache are untouched. -/
theorem nextNode_frame (m : ClientManager) :
    (nextNode m).2.nodes = m.nodes ∧ (nextNode m).2.cache = m.cache := by
  unfold nextNode
  rcases h : nextNodeAux m.nodes m.index m.index m.nodes.length with ⟨step, j⟩
  cases step <;> simp

/-- Unpacking a successful `NextNode` call: the returned node is the pool
entry at the returned position, and the post-state advances the cursor
past it and records its name. -/
theorem nextNode_found {m : ClientManager} {pos : Nat} {node : EthereumNode}
    {m2 : ClientManager} (h : nextNode m = (.found pos node, m2)) :
    node.healthy = true ∧ m.nodes[pos]? = some node ∧
      m2 = { m with index := (pos + 1) % m.nodes.length, lastNodeName := node.name } := by
  unfold nextNode at h
  rcases haux : nextNodeAux m.nodes m.index m.index m.nodes.length with ⟨step, j⟩
  rw [haux] at h
  cases step with
  | found p n =>
    simp only [Prod.mk.injEq, SelectStep.found.injEq] at h
    obtain ⟨⟨hp, hn⟩, hm⟩ := h
    subst hp; subst hn
    obtain ⟨h1, h2, h3⟩ := nextNodeAux_found haux
    subst h3
    exact ⟨h1, h2, hm.symm⟩
  | exhausted => simp at h
  | oobPanic => simp at h

/-! ### Concrete fixtures used by the witnesses -/

def nodeA : EthereumNode := { name := "A", url := "urlA", healthy := true, errorCount := 0 }

def nodeB : EthereumNode := { name := "B", url := "urlB", healthy := true, errorCount := 0 }

def nodeC : EthereumNode := { name := "C", url := "urlC", healthy := true, errorCount := 0 }

def nodeDownA : EthereumNode := { nodeA with healthy := false }

def nodeDownB : EthereumNode := { nodeB with healthy := false }

/-- A pool whose nodes are all unhealthy. -/
def poolDown : ClientManager :=
  { nodes := [nodeDownA, nodeDownB], index := 0, lastNodeName := "", cache := [] }

/-- A pool whose first node is unhealthy and second node is healthy. -/
def poolAB : ClientManager :=
  { nodes := [nodeDownA, nodeB], index := 0, lastNodeName := "", cache := [] }

/-- A pool of three healthy nodes with the cursor on the second. -/
def poolABC : ClientManager :=
  { nodes := [nodeA, nodeB, nodeC], index := 1, lastNodeName := "", cache := [] }

/-! ### Claim theorems about `NextNode` -/

/-- C1: `NextNode` returns a node only if that node's healthy flag is true
at the moment of selection, and on a pool with no healthy node (scanned
from an in-bounds cursor, or empty) it returns `nil`.  The scan budget is
the model's recursion fuel `len(nodes)` itself, so returning within at
most N scanned entries — never looping forever — is structural. -/
theorem nextNode_returns_only_healthy (m : ClientManager) :
    (∀ pos node m2, nextNode m = (.found pos node, m2) → node.healthy = true) ∧
    ((m.index < m.nodes.length ∨ m.nodes = []) →
      (∀ n ∈ m.nodes, n.healthy = false) →
      (nextNode m).1 = .exhausted) := by
  constructor
  · intro pos node m2 h
    exact (nextNode_found h).1
  · rintro (hidx | hempty) hall
    · unfold nextNode
      rcases haux : nextNodeAux m.nodes m.index m.index m.nodes.length with ⟨step, j⟩
      have hex := @nextNodeAux_exhausted m.nodes m.index hall m.nodes.length m.index hidx
      rw [haux] at hex
      cases step <;> simp_all
    · simp [nextNode, nextNodeAux, hempty]

/-- C1 witness: on a concrete all-unhealthy pool selection exhausts, and a
concrete selected node is healthy. -/
theorem nextNode_returns_only_healthy_witness :
    (nextNode poolDown).1 = .exhausted ∧ nodeB.healthy = true :=
  ⟨(nextNode_returns_only_healthy poolDown).2 (Or.inl (by decide)) (by decide),
   (nextNode_returns_only_healthy poolAB).1 1 nodeB
     { poolAB with index := 0, lastNodeName := "B" } (by decide)⟩

/-- C10: on an empty pool `NextNode` returns `nil` leaving the state
untouched (the loop body, with its indexing and `% len(nodes)`, never
runs); from an in-bounds cursor it never performs an out-of-range index
access and leaves the cursor in bounds over the unchanged node slice; and
`NewClientManager` starts the cursor at 0, in bounds for any non-empty
configuration. -/
theorem nextNode_cursor_safety (m : ClientManager) (configs : List NodeConfig) :
    (m.nodes = [] → nextNode m = (.exhausted, m)) ∧
    (m.index < m.nodes.length →
      (nextNode m).1 ≠ .oobPanic ∧
      (nextNode m).2.index < m.nodes.length ∧
      (nextNode m).2.nodes = m.nodes) ∧
    (newClientManager configs).index = 0 ∧
    (configs ≠ [] →
      (newClientManager configs).index < (newClientManager configs).nodes.length) := by
  refine ⟨?_, ?_, rfl, ?_⟩
  · intro hempty
    have h0 : m.nodes.length = 0 := by rw [hempty]; rfl
    unfold nextNode
    rw [h0]
    rfl
  · intro hidx
    obtain ⟨hnp, hlt⟩ := @nextNodeAux_bounds m.nodes m.index m.nodes.length m.index hidx
    unfold nextNode
    rcases haux : nextNodeAux m.nodes m.index m.index m.nodes.length with ⟨step, j⟩
    rw [haux] at hnp hlt
    cases step with
    | found p n => exact ⟨by simp, hlt, rfl⟩
    | exhausted => exact ⟨by simp, hlt, rfl⟩
    | oobPanic => exact absurd rfl hnp
  · intro hne
    simp only [newClientManager, List.length_map]
    exact List.length_pos.mpr hne

/-- The node a `NextNode` outcome hands to the caller (`nil` for the
non-`found` outcomes). -/
def stepToOption : SelectStep → Option EthereumNode
  | .found _ n => some n
  | .exhausted => none
  | .oobPanic => none

/-- `k` consecutive `NextNode` calls with no intervening health changes:
the list of returned nodes and the final state. -/
def selectSeq : Nat → ClientManager → List (Option EthereumNode) × ClientManager
  | 0, m => ([], m)
  | k + 1, m =>
    let r := nextNode m
    let rest := selectSeq k r.2
    (stepToOption r.1 :: rest.1, rest.2)

/-- One scan step from a healthy in-bounds entry selects it at once. -/
theorem nextNodeAux_healthy_head {nodes : List EthereumNode} {s idx fuel : Nat}
    (hidx : idx < nodes.length) (hh : nodes[idx].healthy = true) :
    nextNodeAux nodes s idx (fuel + 1) =
      (.found idx nodes[idx], (idx + 1) % nodes.length) := by
  simp only [nextNodeAux]
  split
  next hg => rw [List.getElem?_eq_getElem hidx] at hg; simp at hg
  next nd hg =>
    rw [List.getElem?_eq_getElem hidx] at hg
    injection hg with hnd
    subst hnd
    simp [hh]

/-- On an all-healthy pool, `NextNode` returns the node under the cursor,
advances the cursor by one (wrapping) and records the node's name. -/
theorem nextNode_all_healthy (m : ClientManager) (hidx : m.index < m.nodes.length)
    (hh : ∀ n ∈ m.nodes, n.healthy = true) :
    nextNode m = (.found m.index m.nodes[m.index],
      { m with index := (m.index + 1) % m.nodes.length,
               lastNodeName := m.nodes[m.index].name }) := by
  have hhead : m.nodes[m.index].healthy = true := hh _ (List.getElem_mem hidx)
  have hstep := @nextNodeAux_healthy_head m.nodes m.index m.index
    (m.nodes.length - 1) hidx hhead
  have hfuel : m.nodes.length - 1 + 1 = m.nodes.length := by omega
  rw [hfuel] at hstep
  unfold nextNode
  rw [hstep]

/-- On an all-healthy pool, `k` consecutive selections return the entries
at cursor positions `index, index+1, …` modulo the pool size, and leave
the cursor at `(index + k) mod N` over the unchanged node slice. -/
theorem selectSeq_all_healthy : ∀ (k : Nat) (m : ClientManager),
    m.index < m.nodes.length → (∀ n ∈ m.nodes, n.healthy = true) →
    (selectSeq k m).1 =
      (List.range k).map (fun j => m.nodes[(m.index + j) % m.nodes.length]?)
    ∧ (selectSeq k m).2.index = (m.index + k) % m.nodes.length
    ∧ (selectSeq k m).2.nodes = m.nodes := by
  intro k
  induction k with
  | zero =>
    intro m hidx _
    exact ⟨by simp [selectSeq], by simp [selectSeq, Nat.mod_eq_of_lt hidx], rfl⟩
  | succ k ih =>
    intro m hidx hh
    have hpos : 0 < m.nodes.length := by omega
    have hmod : (m.index + 1) % m.nodes.length < m.nodes.length := Nat.mod_lt _ hpos
    have hstep := nextNode_all_healthy m hidx hh
    obtain ⟨ih1, ih2, ih3⟩ := ih
      { m with index := (m.index + 1) % m.nodes.length,
               lastNodeName := m.nodes[m.index].name }
      hmod hh
    have hshift : ∀ j : Nat,
        ((m.index + 1) % m.nodes.length + j) % m.nodes.length =
          (m.index + (j + 1)) % m.nodes.length := by
      intro j
      rw [Nat.mod_add_mod, show m.index + 1 + j = m.index + (j + 1) from by omega]
    refine ⟨?_, ?_, ?_⟩
    · simp only [selectSeq, hstep, stepToOption]
      rw [List.range_succ_eq_map, List.map_cons, List.map_map]
      refine List.cons_eq_cons.mpr ⟨?_, ?_⟩
      · rw [show m.index + 0 = m.index from by omega, Nat.mod_eq_of_lt hidx,
          List.getElem?_eq_getElem hidx]
      · rw [ih1]
        congr 1
        funext j
        simp only [Function.comp_apply]
        rw [hshift j]
    · simp only [selectSeq, hstep]
      rw [ih2, hshift k]
    · simp only [selectSeq, hstep]
      exact ih3

/-- The modular enumeration of an all-healthy scan, taken for one full
cycle, is exactly the pool rotated to start at the cursor. -/
theorem range_map_mod_rotation (nodes : List EthereumNode) (s : Nat)
    (hs : s < nodes.length) :
    (List.range nodes.length).map (fun j => nodes[(s + j) % nodes.length]?) =
      (nodes.drop s ++ nodes.take s).map some := by
  have hlen : ((nodes.drop s ++ nodes.take s).map some).length = nodes.length := by
    simp [Nat.min_eq_left (Nat.le_of_lt hs)]
    omega
  apply List.ext_getElem?
  intro j
  by_cases hj : j < nodes.length
  · rw [List.getElem?_map, List.getElem?_map, List.getElem?_range hj]
    simp only [Option.map_some']
    by_cases hcase : j < nodes.length - s
    · rw [List.getElem?_append_left (by simp [List.length_drop]; omega),
        List.getElem?_drop,
        show (s + j) % nodes.length = s + j from Nat.mod_eq_of_lt (by omega),
        List.getElem?_eq_getElem (show s + j < nodes.length from by omega)]
      simp
    · rw [List.getElem?_append_right (by simp [List.length_drop]; omega),
        show j - (nodes.drop s).length = j - (nodes.length - s) from by
          simp [List.length_drop],
        List.getElem?_take_of_lt (by omega),
        show (s + j) % nodes.length = j - (nodes.length - s) from by
          rw [Nat.mod_eq_sub_mod (by omega), Nat.mod_eq_of_lt (by omega)]; omega,
        List.getElem?_eq_getElem (show j - (nodes.length - s) < nodes.length from by omega)]
      simp
  · rw [List.getElem?_eq_none (by simp; omega),
      List.getElem?_eq_none (by rw [hlen]; omega)]

/-- C2: on a pool of N all-healthy nodes, N consecutive `NextNode` calls
with no health changes return each node exactly once, in pool order
starting from the current cursor, and bring the cursor back to where it
started; in general every successful call advances the cursor to just
past the returned node's position modulo N and records the returned
node's name as last dispatched. -/
theorem nextNode_round_robin (m : ClientManager)
    (hidx : m.index < m.nodes.length)
    (hh : ∀ n ∈ m.nodes, n.healthy = true) :
    (selectSeq m.nodes.length m).1 =
      (m.nodes.drop m.index ++ m.nodes.take m.index).map some
    ∧ (selectSeq m.nodes.length m).2.index = m.index
    ∧ (selectSeq m.nodes.length m).2.nodes = m.nodes
    ∧ (∀ st pos node st2, nextNode st = (.found pos node, st2) →
        st2.index = (pos + 1) % st.nodes.length ∧ st2.lastNodeName = node.name) := by
  obtain ⟨h1, h2, h3⟩ := selectSeq_all_healthy m.nodes.length m hidx hh
  refine ⟨?_, ?_, h3, ?_⟩
  · rw [h1]
    exact range_map_mod_rotation m.nodes m.index hidx
  · rw [h2, Nat.add_mod_right]
    exact Nat.mod_eq_of_lt hidx
  · intro st pos node st2 hsel
    obtain ⟨_, _, hst⟩ := nextNode_found hsel
    rw [hst]
    exact ⟨rfl, rfl⟩

/-- C2 witness: a concrete all-healthy three-node pool with the cursor on
the second node. -/
theorem nextNode_round_robin_witness :
    (selectSeq poolABC.nodes.length poolABC).1 =
      (poolABC.nodes.drop poolABC.index ++ poolABC.nodes.take poolABC.index).map some
    ∧ (selectSeq poolABC.nodes.length poolABC).2.index = poolABC.index :=
  ⟨(nextNode_round_robin poolABC (by decide) (by decide)).1,
   (nextNode_round_robin poolABC (by decide) (by decide)).2.1⟩

/-- C10 witness: concrete empty and non-empty pools. -/
theorem nextNode_cursor_safety_witness :
    nextNode (newClientManager []) = (.exhausted, newClientManager []) ∧
    (nextNode poolAB).1 ≠ .oobPanic ∧
    (newClientManager [{ name := "A", url := "urlA" }]).index <
      (newClientManager [{ name := "A", url := "urlA" }]).nodes.length :=
  ⟨(nextNode_cursor_safety (newClientManager []) []).1 rfl,
   ((nextNode_cursor_safety poolAB []).2.1 (by decide)).1,
   (nextNode_cursor_safety poolAB [{ name := "A", url := "urlA" }]).2.2.2 (by decide)⟩

/-! ### Cache and node-marking lemmas -/

/-- Reading back the key just written returns the written item. -/
theorem cacheLookup_cacheInsert_self (c : List (String × CacheItem)) (key : String)
    (item : CacheItem) : cacheLookup (cacheInsert c key item) key = some item := by
  induction c with
  | nil => simp [cacheInsert, cacheLookup]
  | cons kv rest ih =>
    obtain ⟨k, v⟩ := kv
    by_cases hk : k = key
    · simp [cacheInsert, cacheLookup, hk]
    · simp only [cacheInsert, if_neg hk, cacheLookup]
      exact ih

/-- A cache write leaves every other key's binding unchanged. -/
theorem cacheLookup_cacheInsert_ne (c : List (String × CacheItem)) (key other : String)
    (item : CacheItem) (h : other ≠ key) :
    cacheLookup (cacheInsert c key item) other = cacheLookup c other := by
  induction c with
  | nil =>
    simp only [cacheInsert, cacheLookup]
    rw [if_neg (fun he => h he.symm)]
  | cons kv rest ih =>
    obtain ⟨k, v⟩ := kv
    by_cases hk : k = key
    · subst hk
      simp only [cacheInsert, if_pos rfl, cacheLookup]
      rw [if_neg (fun he => h he.symm), if_neg (fun he => h he.symm)]
    · simp only [cacheInsert, if_neg hk, cacheLookup]
      by_cases ho : k = other
      · rw [if_pos ho, if_pos ho]
      · rw [if_neg ho, if_neg ho]
        exact ih

/-- Marking the node at `pos` unhealthy rewrites exactly that entry. -/
theorem markNodeUnhealthy_getElem_self :
    ∀ (nodes : List EthereumNode) (pos : Nat) (node : EthereumNode),
      nodes[pos]? = some node →
      (markNodeUnhealthy nodes pos)[pos]? = some { node with healthy := false } := by
  intro nodes
  induction nodes with
  | nil => intro pos node h; simp at h
  | cons n rest ih =>
    intro pos node h
    cases pos with
    | zero =>
      simp only [List.getElem?_cons_zero, Option.some_inj] at h
      subst h
      simp [markNodeUnhealthy]
    | succ p =>
      simp only [List.getElem?_cons_succ] at h
      simpa [markNodeUnhealthy] using ih p node h

/-- Marking the node at `pos` unhealthy leaves every other entry alone. -/
theorem markNodeUnhealthy_getElem_ne :
    ∀ (nodes : List EthereumNode) (pos q : Nat), q ≠ pos →
      (markNodeUnhealthy nodes pos)[q]? = nodes[q]? := by
  intro nodes
  induction nodes with
  | nil => intro pos q _; simp [markNodeUnhealthy]
  | cons n rest ih =>
    intro pos q hq
    cases pos with
    | zero =>
      cases q with
      | zero => exact absurd rfl hq
      | succ p => simp [markNodeUnhealthy]
    | succ p =>
      cases q with
      | zero => simp [markNodeUnhealthy]
      | succ q2 =>
        simpa [markNodeUnhealthy] using ih p q2 (fun he => hq (by omega))

/-! ### Claim theorems about `GetBalance` -/

/-- C3: a cache entry for the queried address whose age is at most the
configured expiration window makes `GetBalance` return the cached balance
with no error, no node selection, no upstream attempt, and a completely
unchanged manager state, for every upstream oracle. -/
theorem getBalance_cache_hit (envT envR envC : Option Int)
    (fetch : Nat → EthereumNode → FetchResult) (now : Int) (address : String)
    (m : ClientManager) (item : CacheItem)
    (hfound : cacheLookup m.cache address = some item)
    (hfresh : now - item.timestamp ≤ resolveCacheExpiration envC) :
    getBalance envT envR envC fetch now address m =
      { result := .ok item.balance, state := m, selectCalls := 0, attempts := 0 } := by
  simp [getBalance, hfound, hfresh]

/-- C3 witness: a fresh concrete cache entry short-circuits the query. -/
theorem getBalance_cache_hit_witness :
    getBalance none none none (fun _ _ => { balance := "", error := some "down" }) 100 "0xA"
        { nodes := [nodeA], index := 0, lastNodeName := "",
          cache := [("0xA", { balance := "0x5", timestamp := 50 })] } =
      { result := .ok "0x5",
        state := { nodes := [nodeA], index := 0, lastNodeName := "",
                   cache := [("0xA", { balance := "0x5", timestamp := 50 })] },
        selectCalls := 0, attempts := 0 } :=
  getBalance_cache_hit none none none _ 100 "0xA" _
    { balance := "0x5", timestamp := 50 } (by decide) (by decide)

/-- C4: when an iteration's upstream attempt fails, the loop writes the
value the failed call returned into the cache under the queried address
with the current time (leaving all other keys unchanged), marks the node
dispatched for that attempt unhealthy (leaving all other pool entries
unchanged), records the attempt error as the last error, and continues
with the next attempt from that updated state. -/
theorem getBalanceLoop_failure_step (fetch : Nat → EthereumNode → FetchResult)
    (address : String) (now maxR : Int) (fuel i : Nat) (lastErr : Option String)
    (m m1 : ClientManager) (pos : Nat) (node : EthereumNode) (e : String)
    (hsel : nextNode m = (.found pos node, m1))
    (hfail : (fetch i node).error = some e) :
    cacheLookup (cacheInsert m1.cache address ⟨(fetch i node).balance, now⟩) address =
      some ⟨(fetch i node).balance, now⟩
    ∧ (∀ k2, k2 ≠ address →
        cacheLookup (cacheInsert m1.cache address ⟨(fetch i node).balance, now⟩) k2 =
          cacheLookup m1.cache k2)
    ∧ (markNodeUnhealthy m1.nodes pos)[pos]? = some { node with healthy := false }
    ∧ (∀ q, q ≠ pos → (markNodeUnhealthy m1.nodes pos)[q]? = m1.nodes[q]?)
    ∧ getBalanceLoop fetch address now maxR (fuel + 1) i lastErr m =
        { getBalanceLoop fetch address now maxR fuel (i + 1) (some e)
            { m1 with cache := cacheInsert m1.cache address ⟨(fetch i node).balance, now⟩,
                      nodes := markNodeUnhealthy m1.nodes pos } with
          selectCalls := (getBalanceLoop fetch address now maxR fuel (i + 1) (some e)
            { m1 with cache := cacheInsert m1.cache address ⟨(fetch i node).balance, now⟩,
                      nodes := markNodeUnhealthy m1.nodes pos }).selectCalls + 1,
          attempts := (getBalanceLoop fetch address now maxR fuel (i + 1) (some e)
            { m1 with cache := cacheInsert m1.cache address ⟨(fetch i node).balance, now⟩,
                      nodes := markNodeUnhealthy m1.nodes pos }).attempts + 1 } := by
  obtain ⟨_, hget, hm1⟩ := nextNode_found hsel
  have hnodes : m1.nodes[pos]? = some node := by rw [hm1]; exact hget
  refine ⟨cacheLookup_cacheInsert_self _ _ _,
    fun k2 hk2 => cacheLookup_cacheInsert_ne _ _ _ _ hk2,
    markNodeUnhealthy_getElem_self _ _ _ hnodes,
    fun q hq => markNodeUnhealthy_getElem_ne _ _ _ hq, ?_⟩
  simp only [getBalanceLoop, hsel, hfail]

/-- C4 witness: a concrete failing attempt against `poolAB` (dispatching
the healthy node at position 1). -/
theorem getBalanceLoop_failure_step_witness :
    cacheLookup (cacheInsert [] "0xA" ⟨"", (7 : Int)⟩) "0xA" = some ⟨"", (7 : Int)⟩
    ∧ (markNodeUnhealthy [nodeDownA, nodeB] 1)[1]? = some { nodeB with healthy := false } := by
  have h := getBalanceLoop_failure_step (fun _ _ => { balance := "", error := some "boom" })
    "0xA" 7 3 0 0 none poolAB { poolAB with index := 0, lastNodeName := "B" } 1 nodeB "boom"
    (by decide) rfl
  exact ⟨h.1, h.2.2.1⟩

/-- C6: whenever the selector comes back empty in an iteration of the
retry loop, the loop stops at once with the no-healthy-nodes error —
no upstream attempt, no further iterations — and that error is distinct
from the retries-exhausted error; through `GetBalance` (on a cache miss)
the same outcome is surfaced to the caller. -/
theorem getBalanceLoop_no_healthy (envT envR envC : Option Int)
    (fetch : Nat → EthereumNode → FetchResult) (address : String) (now maxR : Int)
    (fuel i : Nat) (lastErr : Option String) (m m1 : ClientManager)
    (hsel : nextNode m = (.exhausted, m1)) :
    getBalanceLoop fetch address now maxR (fuel + 1) i lastErr m =
      { result := .err .noHealthyNodes, state := m1, selectCalls := 1, attempts := 0 }
    ∧ (∀ (r : Int) (le2 : Option String),
        (BalanceError.noHealthyNodes : BalanceError) ≠ .retriesExhausted r le2)
    ∧ (cacheLookup m.cache address = none →
        getBalance envT envR envC fetch now address m =
          { result := .err .noHealthyNodes, state := m1, selectCalls := 1, attempts := 0 }) := by
  refine ⟨?_, ?_, ?_⟩
  · simp only [getBalanceLoop, hsel]
  · intro r le2 h
    exact BalanceError.noConfusion h
  · intro hmiss
    simp only [getBalance, hmiss, getBalanceLoop, hsel]

/-- C6 witness: a concrete all-unhealthy pool aborts the query at once. -/
theorem getBalanceLoop_no_healthy_witness :
    getBalanceLoop (fun _ _ => { balance := "0x1", error := none }) "0xA" 100 3 4 0 none
        poolDown =
      { result := .err .noHealthyNodes, state := poolDown, selectCalls := 1, attempts := 0 }
    ∧ getBalance none none none (fun _ _ => { balance := "0x1", error := none }) 100 "0xA"
        poolDown =
      { result := .err .noHealthyNodes, state := poolDown, selectCalls := 1, attempts := 0 } := by
  have h := getBalanceLoop_no_healthy none none none
    (fun _ _ => { balance := "0x1", error := none }) "0xA" 100 3 3 0 none poolDown poolDown
    (by decide)
  exact ⟨h.1, h.2.2 rfl⟩

/-- C7: when an iteration's upstream attempt succeeds, the loop returns
the fetched value at once after exactly that one attempt; the success
branch writes nothing to the cache and touches no node's health, so the
final state is the post-selection state, whose cache and node slice are
those the loop entered the iteration with. -/
theorem getBalanceLoop_success_step (fetch : Nat → EthereumNode → FetchResult)
    (address : String) (now maxR : Int) (fuel i : Nat) (lastErr : Option String)
    (m m1 : ClientManager) (pos : Nat) (node : EthereumNode)
    (hsel : nextNode m = (.found pos node, m1))
    (hok : (fetch i node).error = none) :
    getBalanceLoop fetch address now maxR (fuel + 1) i lastErr m =
      { result := .ok (fetch i node).balance, state := m1, selectCalls := 1, attempts := 1 }
    ∧ m1.cache = m.cache
    ∧ m1.nodes = m.nodes := by
  obtain ⟨_, _, hm1⟩ := nextNode_found hsel
  refine ⟨by simp only [getBalanceLoop, hsel, hok], by rw [hm1], by rw [hm1]⟩

/-- C7 witness: a concrete succeeding attempt leaves cache and health
untouched. -/
theorem getBalanceLoop_success_step_witness :
    getBalanceLoop (fun _ _ => { balance := "0x9", error := none }) "0xA" 100 3 2 0 none
        poolAB =
      { result := .ok "0x9", state := { poolAB with index := 0, lastNodeName := "B" },
        selectCalls := 1, attempts := 1 }
    ∧ ({ poolAB with index := 0, lastNodeName := "B" } : ClientManager).cache = poolAB.cache := by
  have h := getBalanceLoop_success_step (fun _ _ => { balance := "0x9", error := none })
    "0xA" 100 3 1 0 none poolAB { poolAB with index := 0, lastNodeName := "B" } 1 nodeB
    (by decide) rfl
  exact ⟨h.1, h.2.1⟩

/-- If every upstream attempt fails and no iteration runs out of healthy
nodes (nor panics), the retry loop consumes all its fuel, one attempt per
iteration, and ends with the retries-exhausted error wrapping the error
of the last attempt. -/
theorem getBalanceLoop_all_fail (fetch : Nat → EthereumNode → FetchResult)
    (errF : Nat → String)
    (hfail : ∀ i node, (fetch i node).error = some (errF i))
    (address : String) (now maxR : Int) :
    ∀ (fuel i : Nat) (lastErr : Option String) (m : ClientManager),
      (getBalanceLoop fetch address now maxR fuel i lastErr m).result ≠ .panicked →
      (getBalanceLoop fetch address now maxR fuel i lastErr m).result ≠
        .err .noHealthyNodes →
      (getBalanceLoop fetch address now maxR fuel i lastErr m).attempts = fuel ∧
      (getBalanceLoop fetch address now maxR fuel i lastErr m).result =
        .err (.retriesExhausted maxR
          (if fuel = 0 then lastErr else some (errF (i + fuel - 1)))) := by
  intro fuel
  induction fuel with
  | zero =>
    intro i lastErr m _ _
    exact ⟨rfl, rfl⟩
  | succ fuel ih =>
    intro i lastErr m hp hn
    rcases hsel : nextNode m with ⟨step, m1⟩
    cases step with
    | oobPanic =>
      simp only [getBalanceLoop, hsel] at hp
      exact absurd rfl hp
    | exhausted =>
      simp only [getBalanceLoop, hsel] at hn
      exact absurd rfl hn
    | found pos node =>
      have hf := hfail i node
      simp only [getBalanceLoop, hsel, hf] at hp hn ⊢
      obtain ⟨ha, hr⟩ := ih (i + 1) (some (errF i))
        { m1 with cache := cacheInsert m1.cache address ⟨(fetch i node).balance, now⟩,
                  nodes := markNodeUnhealthy m1.nodes pos } hp hn
      refine ⟨by rw [ha], ?_⟩
      rw [hr]
      by_cases h0 : fuel = 0
      · subst h0
        simp
      · rw [if_neg h0, if_neg (Nat.succ_ne_zero fuel),
          show i + 1 + fuel - 1 = i + (fuel + 1) - 1 from by omega]

/-- C5: on a cache miss with a healthy node found at every iteration and
every upstream attempt failing, `GetBalance` with resolved retry bound R
makes exactly R + 1 upstream attempts and returns the error that names R
as the retry count and wraps the last attempt's underlying error. -/
theorem getBalance_retries_exhausted (envT envR envC : Option Int)
    (fetch : Nat → EthereumNode → FetchResult) (errF : Nat → String) (now : Int)
    (address : String) (m : ClientManager)
    (hmiss : ∀ item, cacheLookup m.cache address = some item →
      resolveCacheExpiration envC < now - item.timestamp)
    (hfail : ∀ i node, (fetch i node).error = some (errF i))
    (hp : (getBalance envT envR envC fetch now address m).result ≠ .panicked)
    (hn : (getBalance envT envR envC fetch now address m).result ≠ .err .noHealthyNodes) :
    (getBalance envT envR envC fetch now address m).attempts =
      (resolveMaxRetries envR).toNat + 1 ∧
    (getBalance envT envR envC fetch now address m).result =
      .err (.retriesExhausted (resolveMaxRetries envR)
        (some (errF (resolveMaxRetries envR).toNat))) := by
  have hgb : getBalance envT envR envC fetch now address m =
      getBalanceLoop fetch address now (resolveMaxRetries envR)
        ((resolveMaxRetries envR).toNat + 1) 0 none m := by
    rcases hc : cacheLookup m.cache address with _ | item
    · simp only [getBalance, hc]
    · have hold := hmiss item hc
      simp only [getBalance, hc, if_neg (not_le.mpr hold)]
  rw [hgb] at hp hn ⊢
  obtain ⟨ha, hr⟩ := getBalanceLoop_all_fail fetch errF hfail address now
    (resolveMaxRetries envR) ((resolveMaxRetries envR).toNat + 1) 0 none m hp hn
  refine ⟨ha, ?_⟩
  rw [hr, if_neg (Nat.succ_ne_zero _),
    show 0 + ((resolveMaxRetries envR).toNat + 1) - 1 = (resolveMaxRetries envR).toNat
      from by omega]

/-- C5 witness: resolved retry bound 1 over an all-healthy pool whose
every attempt fails gives exactly 2 attempts and the error naming 1 and
wrapping the second attempt's error. -/
theorem getBalance_retries_exhausted_witness :
    (getBalance none (some 1) none (fun i _ => { balance := "", error := some (toString i) })
        100 "0xA" poolABC).attempts = 2 ∧
    (getBalance none (some 1) none (fun i _ => { balance := "", error := some (toString i) })
        100 "0xA" poolABC).result = .err (.retriesExhausted 1 (some "1")) := by
  have h := getBalance_retries_exhausted none (some 1) none
    (fun i _ => { balance := "", error := some (toString i) }) (fun i => toString i)
    100 "0xA" poolABC
    (fun item hit => by simp [poolABC, cacheLookup] at hit)
    (fun i node => rfl) (by decide) (by decide)
  exact ⟨h.1, h.2⟩

/-- C8: a probe observing non-success (transport error or non-200 status)
marks the node unhealthy and increments its error count, and schedules a
cooldown — with the fixed one-minute delay — exactly when the new error
count has reached 3; the cooldown, once its delay elapses, unconditionally
marks the node healthy and resets the error count to 0 regardless of the
node's actual state (no re-probe); a successful probe marks the node
healthy and resets the error count to 0. -/
theorem checkNodeHealth_spec (r : ProbeResult) (n : EthereumNode) :
    (probeSuccess r = false →
      (checkNodeHealth r n).node.healthy = false ∧
      (checkNodeHealth r n).node.errorCount = n.errorCount + 1 ∧
      ((checkNodeHealth r n).cooldownScheduled = some cooldownDelaySeconds ↔
        3 ≤ n.errorCount + 1) ∧
      cooldownDelaySeconds = 60) ∧
    (probeSuccess r = true →
      checkNodeHealth r n =
        { node := { n with healthy := true, errorCount := 0 },
          cooldownScheduled := none, panics := false }) ∧
    (∀ (d : Nat) (n2 : EthereumNode),
      cooldownNode d n2 = { n2 with healthy := true, errorCount := 0 }) := by
  refine ⟨?_, ?_, fun d n2 => rfl⟩
  · intro hfail
    have hcheck : checkNodeHealth r n =
        { node := { n with healthy := false, errorCount := n.errorCount + 1 },
          cooldownScheduled :=
            if 3 ≤ n.errorCount + 1 then some cooldownDelaySeconds else none,
          panics := r == .transportError } := by
      unfold checkNodeHealth
      rw [hfail]
      rfl
    rw [hcheck]
    refine ⟨rfl, rfl, ?_, rfl⟩
    by_cases h3 : 3 ≤ n.errorCount + 1
    · simp [h3]
    · simp [h3]
  · intro hsucc
    simp [checkNodeHealth, hsucc]

/-- C8 witness: a transport error on a node with two prior errors marks it
unhealthy at error count 3 and schedules the one-minute cooldown; a 200
probe resets a previously failing node. -/
theorem checkNodeHealth_spec_witness :
    ((checkNodeHealth .transportError { nodeA with errorCount := 2 }).node.healthy = false
      ∧ (checkNodeHealth .transportError { nodeA with errorCount := 2 }).node.errorCount = 3
      ∧ ((checkNodeHealth .transportError
            { nodeA with errorCount := 2 }).cooldownScheduled = some cooldownDelaySeconds ↔
          3 ≤ 2 + 1)
      ∧ cooldownDelaySeconds = 60) ∧
    checkNodeHealth (.status 200) { nodeDownA with errorCount := 5 } =
      { node := { nodeDownA with healthy := true, errorCount := 0 },
        cooldownScheduled := none, panics := false } :=
  ⟨(checkNodeHealth_spec .transportError { nodeA with errorCount := 2 }).1 rfl,
   (checkNodeHealth_spec (.status 200) { nodeDownA with errorCount := 5 }).2.1 rfl⟩

/-- C9 counterexample: an external max retry count of 0 is NOT replaced by
the default 3 — the source guards `maxRetries < 0`, not `<= 0` — refuting
the claim that all three settings default on non-positive values. -/
theorem resolveMaxRetries_zero_not_default :
    ¬ resolveMaxRetries (some 0) = 3 := by decide

/-- C9 amended: the timeout and cache-expiration settings fall back to
their defaults (5 and 60) when absent, unparsable, or non-positive, and
otherwise take the external value; the max retry count falls back to its
default 3 only when absent, unparsable, or negative — an external 0 is
used as-is (yielding a single attempt). -/
theorem envConfig_defaults (v : Int) :
    resolveTimeout none = 5 ∧
    (v ≤ 0 → resolveTimeout (some v) = 5) ∧
    (0 < v → resolveTimeout (some v) = v) ∧
    resolveCacheExpiration none = 60 ∧
    (v ≤ 0 → resolveCacheExpiration (some v) = 60) ∧
    (0 < v → resolveCacheExpiration (some v) = v) ∧
    resolveMaxRetries none = 3 ∧
    (v < 0 → resolveMaxRetries (some v) = 3) ∧
    (0 ≤ v → resolveMaxRetries (some v) = v) := by
  refine ⟨rfl, ?_, ?_, rfl, ?_, ?_, rfl, ?_, ?_⟩ <;> intro h
  · exact if_pos h
  · exact if_neg (not_le.mpr h)
  · exact if_pos h
  · exact if_neg (not_le.mpr h)
  · exact if_pos h
  · exact if_neg (not_lt.mpr h)

/-- C9 witness: concrete resolutions — non-positive timeout defaults,
positive cache window is kept, negative retry count defaults, zero retry
count is kept. -/
theorem envConfig_defaults_witness :
    resolveTimeout (some (-2)) = 5 ∧ resolveCacheExpiration (some 7) = 7 ∧
    resolveMaxRetries (some (-1)) = 3 ∧ resolveMaxRetries (some 0) = 0 :=
  ⟨(envConfig_defaults (-2)).2.1 (by norm_num),
   (envConfig_defaults 7).2.2.2.2.2.1 (by norm_num),
   (envConfig_defaults (-1)).2.2.2.2.2.2.2.1 (by norm_num),
   (envConfig_defaults 0).2.2.2.2.2.2.2.2 le_rfl⟩

end EthProxy
